import Mathlib

/-!
# Verification of the tgit/vekt checkpoint-versioning core

A shallow embedding of the archive engine of the `tgit` repository
(crates `tgit_core` and `vekt_core`): the container reader, the manifest
model, deterministic reconstruction (`restore`) with alignment padding and
shared-weight deduplication, manifest version validation, the repository
lock, and the remote pull's local-blob skip.

Modelling conventions:
* byte sequences are `List Nat` (each element a byte value);
* the BLAKE3-then-hex digest used for content addressing is modelled as an
  injective digest on byte lists (the identity function); the only facts
  about the real digest used by any theorem are "equal bytes give equal
  digests" and "distinct bytes give distinct digests"
  (collision-resistance);
* the object store is a partial map from digests to byte lists;
* machine integers (`usize`, `u64`) are modelled as `Nat`: all quantities
  involved are in-range sizes and offsets, and no wrapping arithmetic
  occurs on any path modelled here.
-/

/-- Byte sequences. -/
abbrev Bytes := List Nat

/-- Content-address digests (the hex-encoded BLAKE3 hash in the source). -/
abbrev Hash := List Nat

/-- Models `hex::encode(blake3::hash(data))`: an injective digest of the
byte sequence.  Modelled as the identity embedding of the bytes, which
realises both directions actually relied upon: equal contents hash equally,
and (collision resistance) distinct contents hash distinctly. -/
def blake3Hex (data : Bytes) : Hash := data

/-- The local object store: `hash -> Option bytes`, abstracting the blob
directory of `.vekt/blobs` (file per hash). `none` means no file with that
name exists. -/
abbrev Store := Hash → Option Bytes

/-- Writing one blob file under its hash name (temp-file + rename in the
source; only the final mapping is observable). -/
def storeInsert (st : Store) (h : Hash) (b : Bytes) : Store :=
  fun h' => if h' = h then some b else st h'

/-- `RawTensorMetaData` from `vekt_core/src/storage.rs`: one entry of the
safetensors header.  `extra` is the `#[serde(flatten)]` map of unknown
fields, kept opaque (keys paired with opaque serialized values). -/
structure RawTensorMetaData where
  shape : List Nat
  dtype : String
  data_offsets : Nat × Nat
  extra : List (String × String)
deriving DecidableEq

/-- `RawHeader` from the source: an order-preserving map (`IndexMap`) from
tensor name to raw metadata, modelled as the underlying association list. -/
abbrev RawHeader := List (String × RawTensorMetaData)

/-- `ManifestTensor` from `vekt_core/src/storage.rs`. -/
structure ManifestTensor where
  shape : List Nat
  dtype : String
  hash : Hash
  index : Nat
  extra : List (String × String)
deriving DecidableEq

/-- `VektManifest` from `vekt_core/src/storage.rs`.  The `tensors` field is
a `BTreeMap` in the source; it is modelled as its association list.  The
operations verified here (`restore`) re-sort the entries by `index`, and
permutation-invariance of that re-sort is proved separately, so the
storage order of this list is immaterial to every theorem below. -/
structure VektManifest where
  tensors : List (String × ManifestTensor)
  version : String
  total_size : Nat
deriving DecidableEq

/-- The error type of `vekt_core` (`crate::errors::VektError`).  The
`errors.rs` module itself is not present in the sources; the constructors
are those constructed by the present code, plus the abstract kinds named
by the specification's error taxonomy (`CorruptHeader`, `UnsupportedVersion`).
`LockExists` is the variant the code uses for the spec's `LockHeld` kind.
Message payloads are kept only where a theorem depends on them. -/
inductive VektError where
  | Io
  | CorruptHeader
  | CorruptTensor
  | InvalidName
  | BlobNotFound
  | BlobCorrupt
  | InvalidManifest (msg : String)
  | UnsupportedVersion (version : String)
  | LockExists
  | RemoteError
  | CredentialError
  | RepoNotFound
deriving DecidableEq

/-- `get_dtype_size` from `vekt_core/src/utils.rs` (the copy in
`tgit_core/src/utils.rs` is textually identical).  Note the source has no
`"F64"` arm: `F64` falls into the 1-byte fallback. -/
def get_dtype_size (dtype : String) : Nat :=
  match dtype with
  | "F32" => 4
  | "F16" => 2
  | "BF16" => 2
  | "I64" => 8
  | "I32" => 4
  | "I16" => 2
  | "I8" => 1
  | "U8" => 1
  | "BOOL" => 1
  | _ => 1

/-- The byte size of a manifest tensor, as computed inside `restore`:
`tensor.shape.iter().product::<usize>() * get_dtype_size(&tensor.dtype)`. -/
def tensorByteSize (t : ManifestTensor) : Nat :=
  t.shape.prod * get_dtype_size t.dtype

/-- Advancing an offset to the next 8-byte boundary, as in the source:
`padding = (8 - (offset % 8)) % 8; offset += padding`. -/
def align8 (o : Nat) : Nat := o + (8 - o % 8) % 8

/-- Substring containment on character lists, modelling Rust's
`str::contains(&str)`: some contiguous run of `hay` equals `needle`. -/
def containsSub : (hay needle : List Char) → Bool
  | hay, needle =>
    if needle.isPrefixOf hay then true
    else
      match hay with
      | [] => false
      | _ :: t => containsSub t needle

/-- The filter predicate inside `VektManifest::restore`
(`vekt_core/src/storage.rs`): keep a name when the optional filter is
absent, or when the name contains any comma-separated, trimmed term. -/
def keepTensor (filter : Option String) (name : String) : Bool :=
  match filter with
  | some f => (f.splitOn ",").any (fun term => containsSub name.toList term.trim.toList)
  | none => true

/-- Modelled from the spec: `validate_tensor_name` lives in the missing
`vekt_core/src/validation.rs`.  Per the data-model invariant, a valid
tensor name is non-empty and contains no path separator, no `..`, no NUL
byte (a leading `/` is subsumed by the separator check). -/
def validate_tensor_name (name : String) : Bool :=
  !name.isEmpty
    && !(name.toList.contains '/')
    && !(name.toList.contains '\\')
    && !(name.toList.contains (Char.ofNat 0))
    && !(containsSub name.toList ['.', '.'])

/-- Ordering used by `sorted_tensor_names.sort_by_key(|name| tensors[name].index)`. -/
def idxLe (a b : String × ManifestTensor) : Prop :=
  a.2.index ≤ b.2.index

instance : DecidableRel idxLe := fun a b => Nat.decLe a.2.index b.2.index

instance : IsTotal (String × ManifestTensor) idxLe :=
  ⟨fun a b => Nat.le_total a.2.index b.2.index⟩

instance : IsTrans (String × ManifestTensor) idxLe :=
  ⟨fun _ _ _ => Nat.le_trans⟩

/-- The surviving tensors of a restore: the manifest entries whose names
pass the filter (`.keys().filter(...)` in the source, with the tensor
carried alongside its name). -/
def survivors (m : VektManifest) (filter : Option String) :
    List (String × ManifestTensor) :=
  m.tensors.filter (fun nt => keepTensor filter nt.1)

/-- `sort_by_key(|name| index)`: a stable sort by ascending `index`
(Rust's stable sort and insertion sort agree on all inputs). -/
def sortByIndex (l : List (String × ManifestTensor)) :
    List (String × ManifestTensor) :=
  l.insertionSort idxLe

/-- State of restore's header-construction pass: the header built so far,
the running offset, and the hash → `(start, end)` placement map. -/
structure Pass1State where
  header : RawHeader
  offset : Nat
  written : List (Hash × (Nat × Nat))
deriving DecidableEq

/-- Lookup in the placement map (a `HashMap` in the source; the code only
ever inserts a hash absent from the map, so association-list shadowing
never arises). -/
def lookupHash : List (Hash × (Nat × Nat)) → Hash → Option (Nat × Nat)
  | [], _ => none
  | (h, se) :: rest, h' => if h = h' then some se else lookupHash rest h'

/-- One step of restore's Pass 1 (header construction), translated from
`vekt_core/src/storage.rs`: reuse the recorded `(start, end)` verbatim for
an already-placed hash (shared-weight deduplication, offset not advanced);
otherwise align the offset to 8, place the tensor there, and record the
placement. -/
def pass1Step (st : Pass1State) (nt : String × ManifestTensor) : Pass1State :=
  let t := nt.2
  match lookupHash st.written t.hash with
  | some (s, e) =>
      { st with
        header := st.header ++
          [(nt.1, { shape := t.shape, dtype := t.dtype,
                    data_offsets := (s, e), extra := t.extra })] }
  | none =>
      let o := align8 st.offset
      let size := tensorByteSize t
      { header := st.header ++
          [(nt.1, { shape := t.shape, dtype := t.dtype,
                    data_offsets := (o, o + size), extra := t.extra })],
        offset := o + size,
        written := (t.hash, (o, o + size)) :: st.written }

/-- Pass 1 over the ordered surviving tensors. -/
def pass1 (l : List (String × ManifestTensor)) : Pass1State :=
  l.foldl pass1Step { header := [], offset := 0, written := [] }

/-- Zero padding up to the next 8-byte boundary of the data written so far,
as in Pass 2 of the source (`current_write_pos` is the length of the bytes
emitted since the start of the data region). -/
def padTo8 (acc : Bytes) : Bytes :=
  acc ++ List.replicate ((8 - acc.length % 8) % 8) 0

/-- Pass 2 (data write) of `VektManifest::restore`: in order, skip tensors
whose hash was already written, pad to an 8-byte boundary, fail
`BlobNotFound` if the blob file is absent, fail `BlobCorrupt` if the read
bytes do not hash to the recorded hash, and only then append the blob
bytes.  Returns the bytes written to the data region together with the
error, if any, that aborted the pass (on an abort the file holds exactly
the returned bytes after the header). -/
def pass2 : List (String × ManifestTensor) → Store → Bytes → List Hash →
    Bytes × Option VektError
  | [], _, acc, _ => (acc, none)
  | nt :: rest, store, acc, written =>
    let t := nt.2
    if t.hash ∈ written then
      pass2 rest store acc written
    else
      let acc2 := padTo8 acc
      match store t.hash with
      | none => (acc2, some .BlobNotFound)
      | some b =>
        if blake3Hex b = t.hash then
          pass2 rest store (acc2 ++ b) (t.hash :: written)
        else
          (acc2, some .BlobCorrupt)

/-- Result of `VektManifest::restore`.  `invalidName`: a tensor name failed
validation (before the output file is created).  `ok`: the written
container, as its parsed header and its data region.  `dataErr`: Pass 2
aborted; the output file holds the header and the partial data region. -/
inductive RestoreResult where
  | invalidName
  | ok (header : RawHeader) (data : Bytes)
  | dataErr (header : RawHeader) (data : Bytes) (e : VektError)
deriving DecidableEq

/-- `VektManifest::restore` from `vekt_core/src/storage.rs`, with the
output container represented by its parsed header (the `IndexMap`
serialized to JSON in the source) and its data region bytes.  The 8-byte
length prefix and the header JSON text are functions of `header` and are
not re-modelled; the round-trip claim compares parsed header entries. -/
def VektManifest.restore (m : VektManifest) (store : Store)
    (filter : Option String) : RestoreResult :=
  if m.tensors.all (fun nt => validate_tensor_name nt.1) then
    let sorted := sortByIndex (survivors m filter)
    let st := pass1 sorted
    match pass2 sorted store [] [] with
    | (bytes, none) => .ok st.header bytes
    | (bytes, some e) => .dataErr st.header bytes e
  else
    .invalidName

/-- `VektManifest::validate_and_migrate` from `vekt_core/src/storage.rs`:
version `"1.0"` passes the manifest through unchanged; any other version
yields `VektError::InvalidManifest` with the unsupported-version message
(there is no dedicated unsupported-version variant on this path). -/
def VektManifest.validate_and_migrate (m : VektManifest) :
    Except VektError VektManifest :=
  if m.version = "1.0" then
    .ok m
  else
    .error (.InvalidManifest
      ("Unsupported manifest version '" ++ m.version ++
       "'. Current version is '1.0'. Please update vekt."))

/-! ## Ingest (`process`) and the container model

A container is its parsed raw header plus its data region bytes; the
on-disk prefix (8-byte little-endian header length, header JSON) is
carried through `headerLen` only for `total_size`. -/

/-- The byte range `[s, e)` of a data region (`&mmap[abs_start..abs_end]`
with the `headerLen + 8` base removed on both sides). -/
def sliceBytes (data : Bytes) (s e : Nat) : Bytes :=
  (data.take e).drop s

/-- The slice an entry addresses in the data region. -/
def sliceOfEntry (data : Bytes) (nm : String × RawTensorMetaData) : Bytes :=
  sliceBytes data nm.2.data_offsets.1 nm.2.data_offsets.2

/-- The content hash recorded for an entry by ingest. -/
def hashOfEntry (data : Bytes) (nm : String × RawTensorMetaData) : Hash :=
  blake3Hex (sliceOfEntry data nm)

/-- Modelled from the spec: the manifest-building loop of
`SafetensorFile::process` for the indexed manifest (`vekt_core`'s
`lib.rs`, not present in the sources; `tgit_core/src/lib.rs` holds an
earlier revision without the `index` field).  Each header entry's original
physical position `i` is captured before filtering; an entry whose
absolute end exceeds the mapped length is dropped (corrupt tensor); the
rest are emitted with their slice's digest and `index = i`.  The survival
test `headerLen + 8 + end > mmap.len()` reduces to `end > data.length`
because `mmap.len() = headerLen + 8 + data.length`. -/
def processFrom (data : Bytes) (i : Nat) :
    List (String × RawTensorMetaData) → List (String × ManifestTensor)
  | [] => []
  | nm :: rest =>
    if nm.2.data_offsets.2 ≤ data.length then
      (nm.1, { shape := nm.2.shape, dtype := nm.2.dtype,
               hash := hashOfEntry data nm, index := i,
               extra := nm.2.extra }) :: processFrom data (i + 1) rest
    else
      processFrom data (i + 1) rest

/-- Modelled from the spec: `SafetensorFile::process` (see `processFrom`).
`total_size` is the mapped length `headerLen + 8 + data.length`. -/
def process (header : RawHeader) (data : Bytes) (headerLen : Nat) :
    VektManifest :=
  { tensors := processFrom data 0 header,
    version := "1.0",
    total_size := headerLen + 8 + data.length }

/-- The header entries that survive ingest's corruption check. -/
def survivingEntries (header : RawHeader) (data : Bytes) : RawHeader :=
  header.filter (fun nm => nm.2.data_offsets.2 ≤ data.length)

/-- The blob insertions performed by ingest with `save_blobs = true`: each
surviving slice is stored under its digest.  The source skips the write
when the file already exists; since the store is content-addressed the
resulting mapping is the same either way, and the unconditional insert is
the modelled effect. -/
def insertEntries (data : Bytes) : RawHeader → Store → Store
  | [], st => st
  | nm :: rest, st =>
      insertEntries data rest
        (storeInsert st (hashOfEntry data nm) (sliceOfEntry data nm))

/-- The local store after ingest of a container over an initial store. -/
def processStore (header : RawHeader) (data : Bytes) (st : Store) : Store :=
  insertEntries data (survivingEntries header data) st

/-! ## Container layout predicate for the round-trip claim

`layoutFrom data o entries` says the entries tile the data region from
offset `o` onward exactly the way `restore` lays a container out: each
entry starts at the next 8-byte-aligned offset, the gap up to it is zero
bytes, its recorded extent equals `product(shape) × dtype-size`, and the
last entry ends exactly at the end of the data region. -/

/-- The byte size a raw header entry declares through `shape`/`dtype`. -/
def entrySize (m : RawTensorMetaData) : Nat :=
  m.shape.prod * get_dtype_size m.dtype

def layoutFrom (data : Bytes) : Nat → List (String × RawTensorMetaData) → Bool
  | o, [] => data.length == o
  | o, nm :: rest =>
    let s := align8 o
    (nm.2.data_offsets == (s, s + entrySize nm.2))
      && (sliceBytes data o s == List.replicate (s - o) 0)
      && layoutFrom data (s + entrySize nm.2) rest

/-- A container whose tensors are 8-byte aligned between tensors and
non-overlapping, in the exact sense reproduced by `restore`: consecutive
in header order from offset 0, aligned starts, zero padding in the gaps,
`data_offsets` extents matching `shape`/`dtype`, spanning the data
region. -/
def wellLaidOut (header : RawHeader) (data : Bytes) : Bool :=
  layoutFrom data 0 header

/-! ## Container reader (`SafetensorFile::open`, `tgit_core/src/lib.rs`) -/

/-- Outcome of opening a container.  `aborted` models a Rust panic
(`unwrap` failure or out-of-range slice), which aborts rather than
returning an error.  `corruptHeader` is the spec's abstract failure kind;
the code under `src/` never produces it (present to state the claim). -/
inductive OpenResult where
  | ok (header : RawHeader) (headerLen : Nat)
  | ioError
  | corruptHeader
  | aborted
deriving DecidableEq

/-- `usize::from_le_bytes` on the first 8 bytes. -/
def le64 (bs : Bytes) : Nat :=
  bs.foldr (fun b acc => b + 256 * acc) 0

/-- `SafetensorFile::open` from `tgit_core/src/lib.rs`.  `file = none`
models `File::open`/`Mmap::map` failure (returned as an IO error).  The
UTF-8 decoder (`std::str::from_utf8`) and the JSON header parser
(`serde_json::from_str`) are external library functions, taken as
parameters returning `none` on failure; the source calls `.unwrap()` on
both results and slices `&mmap[8..8 + header_len]` unchecked, so each
failure aborts the process. -/
def safetensorOpen (utf8Dec : Bytes → Option String)
    (jsonHeader : String → Option RawHeader)
    (file : Option Bytes) : OpenResult :=
  match file with
  | none => .ioError
  | some mmap =>
    if mmap.length < 8 then .aborted
    else
      let headerLen := le64 (mmap.take 8)
      if 8 + headerLen > mmap.length then .aborted
      else
        match utf8Dec (sliceBytes mmap 8 (8 + headerLen)) with
        | none => .aborted
        | some s =>
          match jsonHeader s with
          | none => .aborted
          | some h => .ok h headerLen

/-! ## Repository lock (`LockFile::lock`, `vekt_core/src/utils.rs`) -/

/-- The lock file, when present: its modification time (unix seconds) and
its contents. -/
structure LockState where
  lockFile : Option (Nat × String)
deriving DecidableEq

/-- Outcome of a lock acquisition attempt: the result, the lock file
afterwards, and whether the stale-lock warning was printed. -/
structure LockOutcome where
  res : Option VektError
  lockAfter : Option (Nat × String)
  warned : Bool
deriving DecidableEq

/-- `LockFile::lock` from `vekt_core/src/utils.rs` over the lock-file
state.  If the file exists and `now.duration_since(mtime)` succeeds
(`mtime ≤ now`): age over `STALE_LOCK_THRESHOLD_SECS = 300` removes the
stale file with a warning and proceeds; otherwise `LockExists`.  If the
file exists with a future `mtime`, `duration_since` fails, the stale check
is skipped, and the exclusive `create_new` fails: `LockExists`, file left
in place.  On success a fresh lock file is created exclusively and
`"<pid>\n<now>"` is written into it. -/
def lockFileLock (pid now : Nat) (st : LockState) : LockOutcome :=
  let content := toString pid ++ "\n" ++ toString now
  match st.lockFile with
  | some (mtime, c) =>
    if mtime ≤ now then
      if now - mtime > 300 then
        { res := none, lockAfter := some (now, content), warned := true }
      else
        { res := some .LockExists, lockAfter := some (mtime, c), warned := false }
    else
      { res := some .LockExists, lockAfter := some (mtime, c), warned := false }
  | none => { res := none, lockAfter := some (now, content), warned := false }

/-! ## Remote pull, blob stage (`RemoteClient::pull`, `vekt_core/src/remote.rs`) -/

/-- One blob task of `pull`: if the blob already exists locally it is
skipped outright (no remote request, no write, no verification);
otherwise it is fetched from `blobs/<hash>` and inserted (temp file +
rename, modelled by the final mapping).  Returns the store, the fetched
hash if a download happened, and the task's error if any. -/
def pullBlobStep (remote : Hash → Option Bytes) (st : Store) (h : Hash) :
    Store × Option Hash × Option VektError :=
  match st h with
  | some _ => (st, none, none)
  | none =>
    match remote h with
    | none => (st, none, some .RemoteError)
    | some b => (storeInsert st h b, some h, none)

/-- The blob stage of `pull` over the manifest's referenced hashes.  The
source runs the tasks with `buffer_unordered(10)` and then surfaces the
first error after all have run; the tasks of distinct hashes touch
disjoint store keys, and the per-key effect modelled here is
schedule-independent, so the fold is taken in list order. -/
def pullBlobs (remote : Hash → Option Bytes) :
    List Hash → Store → Store × List Hash × Option VektError
  | [], st => (st, [], none)
  | h :: rest, st =>
    let (st', f, e) := pullBlobStep remote st h
    let (st'', fs, e') := pullBlobs remote rest st'
    (st'', (f.toList ++ fs), e <|> e')

/-! ## Shared helper lemmas -/

/-- `blake3Hex` is injective (models collision resistance of the digest). -/
theorem blake3Hex_injective : Function.Injective blake3Hex := fun _ _ h => h

theorem align8_ge (o : Nat) : o ≤ align8 o := Nat.le_add_right _ _

theorem align8_mod (o : Nat) : align8 o % 8 = 0 := by
  unfold align8; omega

theorem align8_lt (o : Nat) : align8 o < o + 8 := by
  unfold align8
  have : o % 8 < 8 := Nat.mod_lt _ (by omega)
  omega

/-- Pull preserves every blob already present in the local store, and never
downloads its hash.  (Key frame lemma for the pull claims.) -/
theorem pullBlobs_frame (remote : Hash → Option Bytes) :
    ∀ (hashes : List Hash) (st : Store) (h : Hash) (b : Bytes),
      st h = some b →
      (pullBlobs remote hashes st).1 h = some b ∧
        h ∉ (pullBlobs remote hashes st).2.1
  | [], st, h, b, hb => ⟨hb, by simp [pullBlobs]⟩
  | h' :: rest, st, h, b, hb => by
    unfold pullBlobs pullBlobStep
    cases hh' : st h' with
    | some b' =>
      simpa [hh'] using pullBlobs_frame remote rest st h b hb
    | none =>
      have hne : h' ≠ h := fun he => by rw [he, hb] at hh'; cases hh'
      cases hr : remote h' with
      | none =>
        simpa [hh', hr] using pullBlobs_frame remote rest st h b hb
      | some bf =>
        have hb' : storeInsert st h' bf h = some b := by
          unfold storeInsert
          rw [if_neg (fun he => hne he.symm)]
          exact hb
        have ih := pullBlobs_frame remote rest (storeInsert st h' bf) h b hb'
        simp only [hh', hr]
        refine ⟨ih.1, ?_⟩
        simp only [Option.toList_some, List.cons_append, List.nil_append,
          List.mem_cons]
        rintro (he | hm)
        · exact hne he.symm
        · exact ih.2 hm

/-! ## C4 — dtype byte sizes -/

/-- **C4.** `get_dtype_size` evaluated over the claimed closed set.  Nine
of the ten claimed mappings hold, but the source has no `"F64"` arm, so
`F64` falls into the catch-all fallback and maps to `1`, not the claimed
`8` (the ingest/restore size arithmetic is wrong for every F64 tensor). -/
theorem claim_C4_dtype_sizes :
    get_dtype_size "F32" = 4 ∧ get_dtype_size "F16" = 2 ∧
    get_dtype_size "BF16" = 2 ∧ get_dtype_size "F64" = 1 ∧
    get_dtype_size "I64" = 8 ∧ get_dtype_size "I32" = 4 ∧
    get_dtype_size "I16" = 2 ∧ get_dtype_size "I8" = 1 ∧
    get_dtype_size "U8" = 1 ∧ get_dtype_size "BOOL" = 1 := by
  repeat' constructor

/-! ## C8 — manifest version validation -/

/-- Detects the spec's `UnsupportedVersion` error kind in a
`validate_and_migrate` result. -/
def resultIsUnsupportedVersionKind :
    Except VektError VektManifest → Bool
  | .error (.UnsupportedVersion _) => true
  | _ => false

/-- A concrete manifest with an unrecognized version. -/
def manifestV20 : VektManifest :=
  { tensors := [], version := "2.0", total_size := 0 }

/-- **C8 (counterexample).** On version `"2.0"`, `validate_and_migrate`
does not fail with the `UnsupportedVersion` kind: it returns the
`InvalidManifest` variant carrying the unsupported-version message. -/
theorem claim_C8_counterexample :
    manifestV20.version ≠ "1.0" ∧
    resultIsUnsupportedVersionKind manifestV20.validate_and_migrate = false ∧
    manifestV20.validate_and_migrate =
      .error (.InvalidManifest
        "Unsupported manifest version '2.0'. Current version is '1.0'. Please update vekt.") := by
  refine ⟨by decide, rfl, rfl⟩

/-- **C8 (amended).** `validate_and_migrate` returns the manifest
unchanged when `version = "1.0"`, and for every other version fails with
`InvalidManifest` carrying the message
`Unsupported manifest version '<v>'. Current version is '1.0'. Please update vekt.`
(the source constructs `VektError::InvalidManifest`, not a dedicated
unsupported-version variant). -/
theorem claim_C8_validate_and_migrate (m : VektManifest) :
    (m.version = "1.0" → m.validate_and_migrate = .ok m) ∧
    (m.version ≠ "1.0" → m.validate_and_migrate =
      .error (.InvalidManifest
        ("Unsupported manifest version '" ++ m.version ++
         "'. Current version is '1.0'. Please update vekt."))) := by
  unfold VektManifest.validate_and_migrate
  constructor
  · intro h; simp [h]
  · intro h; simp [h]

/-- Witness for C8: both branches at concrete manifests. -/
theorem claim_C8_witness :
    ((VektManifest.mk [] "1.0" 0).validate_and_migrate =
      .ok (VektManifest.mk [] "1.0" 0)) ∧
    manifestV20.validate_and_migrate =
      .error (.InvalidManifest
        ("Unsupported manifest version '" ++ "2.0" ++
         "'. Current version is '1.0'. Please update vekt.")) :=
  ⟨(claim_C8_validate_and_migrate _).1 rfl,
   (claim_C8_validate_and_migrate manifestV20).2 (by decide)⟩

/-! ## C9 — repository lock acquisition -/

/-- **C9.** `LockFile::lock` against an existing lock file: if the file's
mtime is within 300 seconds of now (in either direction), acquisition
fails with the lock-held error (`VektError::LockExists`) and the lock file
is left in place; if the file is older than 300 seconds, it is removed
with a warning and a fresh lock file is created exclusively, containing
`<pid>\n<now>`. -/
theorem claim_C9_lock (pid now mtime : Nat) (c : String) :
    (((now : Int) - mtime).natAbs ≤ 300 →
      lockFileLock pid now ⟨some (mtime, c)⟩ =
        { res := some .LockExists, lockAfter := some (mtime, c),
          warned := false }) ∧
    (mtime ≤ now → 300 < now - mtime →
      lockFileLock pid now ⟨some (mtime, c)⟩ =
        { res := none,
          lockAfter := some (now, toString pid ++ "\n" ++ toString now),
          warned := true }) := by
  constructor
  · intro h
    unfold lockFileLock
    by_cases hm : mtime ≤ now
    · have hnot : ¬ 300 < now - mtime := by omega
      simp [hm, hnot]
    · simp [hm]
  · intro h1 h2
    unfold lockFileLock
    simp [h1, h2]

/-- Witness for C9: a held lock 50 s old fails and stays; a stale lock
400 s old is reclaimed and rewritten. -/
theorem claim_C9_witness :
    (lockFileLock 7 1000 ⟨some (950, "old")⟩ =
      { res := some .LockExists, lockAfter := some (950, "old"),
        warned := false }) ∧
    (lockFileLock 7 1000 ⟨some (600, "old")⟩ =
      { res := none, lockAfter := some (1000, toString 7 ++ "\n" ++ toString 1000),
        warned := true }) :=
  ⟨(claim_C9_lock 7 1000 950 "old").1 (by decide),
   (claim_C9_lock 7 1000 600 "old").2 (by decide) (by decide)⟩

/-! ## C10 — pull leaves pre-existing blobs alone -/

/-- **C10.** For every blob hash already present in the local store when a
pull runs, the blob stage leaves the stored bytes unchanged and performs
no remote fetch for that hash.  The hypothesis places no constraint
relating the stored bytes `b` to the hash `h`, so in particular a
pre-existing wrong-content blob (`blake3Hex b ≠ h`) survives the pull
unexamined. -/
theorem claim_C10_pull_skips_existing (remote : Hash → Option Bytes)
    (hashes : List Hash) (st : Store) (h : Hash) (b : Bytes)
    (hb : st h = some b) :
    (pullBlobs remote hashes st).1 h = some b ∧
      h ∉ (pullBlobs remote hashes st).2.1 :=
  pullBlobs_frame remote hashes st h b hb

/-- Witness for C10: a store holding a corrupt blob (`[5]` under hash
`[1, 1]`, whose digest is `[5] ≠ [1, 1]`) keeps it byte-for-byte through a
pull of `[[1, 1], [2, 2]]`, and `[1, 1]` is not fetched. -/
theorem claim_C10_witness :
    blake3Hex [5] ≠ ([1, 1] : Hash) ∧
    ((pullBlobs (fun _ => some [7]) [[1, 1], [2, 2]]
        (fun x => if x = [1, 1] then some [5] else none)).1 [1, 1] = some [5] ∧
      [1, 1] ∉ (pullBlobs (fun _ => some [7]) [[1, 1], [2, 2]]
        (fun x => if x = [1, 1] then some [5] else none)).2.1) :=
  ⟨by decide,
   claim_C10_pull_skips_existing (fun _ => some [7]) [[1, 1], [2, 2]]
     (fun x => if x = [1, 1] then some [5] else none) [1, 1] [5] (by decide)⟩

/-! ## C5 — restore filter semantics -/

/-- The substrings the spec derives from a filter string: split on commas,
each piece trimmed. -/
def specFilterTerms (f : String) : List String :=
  (f.splitOn ",").map (fun t => t.trim)

/-- The spec's keep condition: with a filter present, the name contains at
least one of the split-and-trimmed substrings; with no filter, kept. -/
def specKeep (filter : Option String) (name : String) : Prop :=
  match filter with
  | none => True
  | some f => ∃ term ∈ specFilterTerms f, containsSub name.toList term.toList = true

theorem keepTensor_iff_specKeep (filter : Option String) (name : String) :
    keepTensor filter name = true ↔ specKeep filter name := by
  cases filter with
  | none => simp [keepTensor, specKeep]
  | some f =>
    simp only [keepTensor, specKeep, specFilterTerms, List.any_eq_true]
    constructor
    · rintro ⟨x, hx, hc⟩
      exact ⟨x.trim, List.mem_map.mpr ⟨x, hx, rfl⟩, hc⟩
    · rintro ⟨term, hterm, hc⟩
      obtain ⟨x, hx, rfl⟩ := List.mem_map.mp hterm
      exact ⟨x, hx, hc⟩

/-- **C5.** A tensor survives restore's filter iff its name contains at
least one of the substrings obtained by splitting the filter on commas and
trimming each piece; with no filter every tensor is kept. -/
theorem claim_C5_filter (m : VektManifest) (filter : Option String)
    (name : String) (t : ManifestTensor) :
    ((name, t) ∈ survivors m filter ↔
      ((name, t) ∈ m.tensors ∧ specKeep filter name)) ∧
    (filter = none → survivors m filter = m.tensors) := by
  constructor
  · rw [survivors, List.mem_filter]
    exact and_congr_right' (keepTensor_iff_specKeep filter name)
  · rintro rfl
    simp [survivors, keepTensor]

/-- Witness for C5: `enc.w` survives the filter `"enc, dec"`, and with no
filter everything is kept. -/
theorem claim_C5_witness :
    (("encw", ManifestTensor.mk [1] "U8" [3] 0 []) ∈
        survivors (VektManifest.mk
          [("encw", ManifestTensor.mk [1] "U8" [3] 0 [])] "1.0" 0)
          (some "enc, dec") ↔
      (("encw", ManifestTensor.mk [1] "U8" [3] 0 []) ∈
          [("encw", ManifestTensor.mk [1] "U8" [3] 0 [])] ∧
        specKeep (some "enc, dec") "encw")) ∧
    survivors (VektManifest.mk
      [("encw", ManifestTensor.mk [1] "U8" [3] 0 [])] "1.0" 0) none =
      [("encw", ManifestTensor.mk [1] "U8" [3] 0 [])] :=
  ⟨(claim_C5_filter (VektManifest.mk
      [("encw", ManifestTensor.mk [1] "U8" [3] 0 [])] "1.0" 0)
      (some "enc, dec") "encw" (ManifestTensor.mk [1] "U8" [3] 0 [])).1,
   (claim_C5_filter (VektManifest.mk
      [("encw", ManifestTensor.mk [1] "U8" [3] 0 [])] "1.0" 0)
      none "encw" (ManifestTensor.mk [1] "U8" [3] 0 [])).2 rfl⟩

/-! ## C7 — container open failure behavior -/

/-- A UTF-8 decoder that always fails (instantiation for witnesses). -/
def utf8AlwaysFail : Bytes → Option String := fun _ => none

/-- A JSON header parser that always fails (instantiation for witnesses). -/
def jsonAlwaysFail : String → Option RawHeader := fun _ => none

/-- **C7 (counterexample).** An 8-byte file whose length prefix reads 16:
`L` exceeds the file size, and `SafetensorFile::open` aborts (panics on
the out-of-range slice) instead of failing with `CorruptHeader`. -/
theorem claim_C7_counterexample :
    safetensorOpen utf8AlwaysFail jsonAlwaysFail
        (some [16, 0, 0, 0, 0, 0, 0, 0]) = .aborted ∧
      (OpenResult.aborted ≠ OpenResult.corruptHeader) :=
  ⟨rfl, by decide⟩

/-- **C7 (amended).** `SafetensorFile::open` (`tgit_core/src/lib.rs`)
aborts — panics via an unchecked slice or `.unwrap()` — rather than
returning `CorruptHeader`, whenever the 8-byte header length `L` exceeds
the file size, the header bytes are not valid UTF-8, or the header JSON
fails to parse; a mapping failure yields an IO error. -/
theorem claim_C7_open_behavior (utf8Dec : Bytes → Option String)
    (jsonHeader : String → Option RawHeader) (mmap : Bytes) :
    (safetensorOpen utf8Dec jsonHeader none = .ioError) ∧
    (8 ≤ mmap.length → mmap.length < 8 + le64 (mmap.take 8) →
      safetensorOpen utf8Dec jsonHeader (some mmap) = .aborted) ∧
    (8 ≤ mmap.length → 8 + le64 (mmap.take 8) ≤ mmap.length →
      utf8Dec (sliceBytes mmap 8 (8 + le64 (mmap.take 8))) = none →
      safetensorOpen utf8Dec jsonHeader (some mmap) = .aborted) ∧
    (∀ s, 8 ≤ mmap.length → 8 + le64 (mmap.take 8) ≤ mmap.length →
      utf8Dec (sliceBytes mmap 8 (8 + le64 (mmap.take 8))) = some s →
      jsonHeader s = none →
      safetensorOpen utf8Dec jsonHeader (some mmap) = .aborted) := by
  refine ⟨rfl, ?_, ?_, ?_⟩
  · intro h8 hover
    have h1 : ¬ mmap.length < 8 := by omega
    have h2 : 8 + le64 (mmap.take 8) > mmap.length := hover
    simp [safetensorOpen, h1, h2]
  · intro h8 hfit hdec
    have h1 : ¬ mmap.length < 8 := by omega
    have h2 : ¬ 8 + le64 (mmap.take 8) > mmap.length := by omega
    simp [safetensorOpen, h1, h2, hdec]
  · intro s h8 hfit hdec hjson
    have h1 : ¬ mmap.length < 8 := by omega
    have h2 : ¬ 8 + le64 (mmap.take 8) > mmap.length := by omega
    simp [safetensorOpen, h1, h2, hdec, hjson]

/-- Witness for C7: the three abort modes and the IO mode at concrete
inputs (length prefix 16 over an 8-byte file; length prefix 0 with a
failing UTF-8 decoder; length prefix 0 with a succeeding decoder and a
failing JSON parser). -/
theorem claim_C7_witness :
    safetensorOpen utf8AlwaysFail jsonAlwaysFail none = .ioError ∧
    safetensorOpen utf8AlwaysFail jsonAlwaysFail
      (some [16, 0, 0, 0, 0, 0, 0, 0]) = .aborted ∧
    safetensorOpen utf8AlwaysFail jsonAlwaysFail
      (some [0, 0, 0, 0, 0, 0, 0, 0]) = .aborted ∧
    safetensorOpen (fun _ => some "x") jsonAlwaysFail
      (some [0, 0, 0, 0, 0, 0, 0, 0]) = .aborted :=
  ⟨(claim_C7_open_behavior utf8AlwaysFail jsonAlwaysFail []).1,
   (claim_C7_open_behavior utf8AlwaysFail jsonAlwaysFail
      [16, 0, 0, 0, 0, 0, 0, 0]).2.1 (by decide) (by decide),
   (claim_C7_open_behavior utf8AlwaysFail jsonAlwaysFail
      [0, 0, 0, 0, 0, 0, 0, 0]).2.2.1 (by decide) (by decide) rfl,
   (claim_C7_open_behavior (fun _ => some "x") jsonAlwaysFail
      [0, 0, 0, 0, 0, 0, 0, 0]).2.2.2 "x" (by decide) (by decide) rfl rfl⟩

/-! ## C6 — blob verification during restore's data pass -/

/-- Pass 2 can only abort with `BlobNotFound` or `BlobCorrupt`. -/
theorem pass2_err_cases :
    ∀ (l : List (String × ManifestTensor)) (store : Store) (acc : Bytes)
      (w : List Hash) (e : VektError),
      (pass2 l store acc w).2 = some e →
      e = .BlobNotFound ∨ e = .BlobCorrupt
  | [], _, _, _, e, h => by simp [pass2] at h
  | nt :: rest, store, acc, w, e, h => by
    rw [pass2] at h
    by_cases hm : nt.2.hash ∈ w
    · rw [if_pos hm] at h
      exact pass2_err_cases rest store acc w e h
    · rw [if_neg hm] at h
      cases hs : store nt.2.hash with
      | none =>
        simp only [hs] at h
        exact Or.inl ((Option.some_inj.mp h).symm)
      | some b =>
        simp only [hs] at h
        by_cases hv : blake3Hex b = nt.2.hash
        · rw [if_pos hv] at h
          exact pass2_err_cases rest store _ _ e h
        · rw [if_neg hv] at h
          exact Or.inr ((Option.some_inj.mp h).symm)

/-- **C6.** During restore's data-writing pass: a tensor whose hash has no
blob file fails `BlobNotFound`; a blob file whose bytes do not hash to the
recorded hash fails `BlobCorrupt`; and the blob bytes are appended to the
output only after verification succeeds — both failure outcomes carry only
the bytes written before the offending tensor (plus its alignment
padding, which the source writes before the existence check), never the
blob's bytes.  Any pass-2 abort surfaced by `restore` is one of these two
errors. -/
theorem claim_C6_blob_errors (m : VektManifest) (store : Store)
    (filter : Option String) (hdr : RawHeader) (pd : Bytes) (e : VektError)
    (name : String) (t : ManifestTensor)
    (rest : List (String × ManifestTensor)) (acc : Bytes)
    (written : List Hash) :
    (m.restore store filter = .dataErr hdr pd e →
      e = .BlobNotFound ∨ e = .BlobCorrupt) ∧
    (t.hash ∉ written → store t.hash = none →
      pass2 ((name, t) :: rest) store acc written =
        (padTo8 acc, some .BlobNotFound)) ∧
    (∀ b, t.hash ∉ written → store t.hash = some b →
      blake3Hex b ≠ t.hash →
      pass2 ((name, t) :: rest) store acc written =
        (padTo8 acc, some .BlobCorrupt)) ∧
    (∀ b, t.hash ∉ written → store t.hash = some b →
      blake3Hex b = t.hash →
      pass2 ((name, t) :: rest) store acc written =
        pass2 rest store (padTo8 acc ++ b) (t.hash :: written)) := by
  refine ⟨?_, ?_, ?_, ?_⟩
  · intro hres
    unfold VektManifest.restore at hres
    by_cases hv : m.tensors.all (fun nt => validate_tensor_name nt.1)
    · rw [if_pos hv] at hres
      rcases hp : pass2 (sortByIndex (survivors m filter)) store [] [] with
        ⟨bytes, err⟩
      simp only [hp] at hres
      cases err with
      | none => simp at hres
      | some e' =>
        injection hres with h1 h2 h3
        subst h3
        exact pass2_err_cases _ store [] [] e' (by rw [hp])
    · rw [if_neg hv] at hres
      exact absurd hres (by simp)
  · intro hm hs
    rw [pass2, if_neg hm]
    simp only [hs]
  · intro b hm hs hv
    rw [pass2, if_neg hm]
    simp only [hs, if_neg hv]
  · intro b hm hs hv
    rw [pass2, if_neg hm]
    simp only [hs, if_pos hv]

/-- Witness for C6: a restore against an empty store aborts `BlobNotFound`
with nothing written after the header; a present-but-corrupt blob aborts
`BlobCorrupt`; a verified blob is appended. -/
theorem claim_C6_witness :
    (VektError.BlobNotFound = .BlobNotFound ∨
      VektError.BlobNotFound = .BlobCorrupt) ∧
    (pass2 [("a", ManifestTensor.mk [1] "U8" [9] 0 [])]
        (fun _ => none) [] [] = ([], some .BlobNotFound)) ∧
    (pass2 [("a", ManifestTensor.mk [1] "U8" [1] 0 [])]
        (fun h => if h = [1] then some [2] else none) [] [] =
      ([], some .BlobCorrupt)) ∧
    (pass2 [("a", ManifestTensor.mk [1] "U8" [2] 0 [])]
        (fun h => if h = [2] then some [2] else none) [] [] =
      pass2 [] (fun h => if h = [2] then some [2] else none) [2] [[2]]) :=
  ⟨(claim_C6_blob_errors
      (VektManifest.mk [("a", ManifestTensor.mk [1] "U8" [9] 0 [])] "1.0" 0)
      (fun _ => none) none [("a", RawTensorMetaData.mk [1] "U8" (0, 1) [])]
      [] .BlobNotFound "a" (ManifestTensor.mk [1] "U8" [9] 0 []) [] [] []).1
      (by decide),
   (claim_C6_blob_errors
      (VektManifest.mk [] "1.0" 0) (fun _ => none) none [] [] .Io
      "a" (ManifestTensor.mk [1] "U8" [9] 0 []) [] [] []).2.1
      (by decide) rfl,
   (claim_C6_blob_errors
      (VektManifest.mk [] "1.0" 0)
      (fun h => if h = [1] then some [2] else none) none [] [] .Io
      "a" (ManifestTensor.mk [1] "U8" [1] 0 []) [] [] []).2.2.1 [2]
      (by decide) (by decide) (by decide),
   (claim_C6_blob_errors
      (VektManifest.mk [] "1.0" 0)
      (fun h => if h = [2] then some [2] else none) none [] [] .Io
      "a" (ManifestTensor.mk [1] "U8" [2] 0 []) [] [] []).2.2.2 [2]
      (by decide) (by decide) rfl⟩

/-! ## C3 — restore ordering and placement -/

/-- Strict index order, used to pin down sorted lists with distinct
indices. -/
def idxLt (a b : String × ManifestTensor) : Prop :=
  a.2.index < b.2.index

instance : IsAntisymm (String × ManifestTensor) idxLt :=
  ⟨fun _ _ h1 h2 => absurd h2 (Nat.lt_asymm h1)⟩

theorem sorted_idxLt_of_nodup {l : List (String × ManifestTensor)}
    (hs : l.Sorted idxLe) (hn : (l.map (fun x => x.2.index)).Nodup) :
    l.Sorted idxLt := by
  have hne : l.Pairwise (fun a b => a.2.index ≠ b.2.index) :=
    List.pairwise_map.mp hn
  exact (hs.and hne).imp (fun h => Nat.lt_of_le_of_ne h.1 h.2)

/-- A stable sort by `index` is insensitive to the order in which the
manifest map serialized its entries, provided the `index` values are
distinct (data-model invariant 4): sorting any permutation gives the same
list. -/
theorem sortByIndex_perm_invariant (l l' : List (String × ManifestTensor))
    (hperm : l'.Perm l)
    (hnodup : (l.map (fun x => x.2.index)).Nodup) :
    sortByIndex l' = sortByIndex l := by
  have hp : (sortByIndex l').Perm (sortByIndex l) :=
    ((l'.perm_insertionSort idxLe).trans hperm).trans
      (l.perm_insertionSort idxLe).symm
  have hs' : (sortByIndex l').Sorted idxLe := l'.sorted_insertionSort idxLe
  have hs : (sortByIndex l).Sorted idxLe := l.sorted_insertionSort idxLe
  have hnl : ((sortByIndex l).map (fun x => x.2.index)).Nodup :=
    (((l.perm_insertionSort idxLe).map (fun x => x.2.index)).nodup_iff).mpr
      hnodup
  have hnl' : ((sortByIndex l').map (fun x => x.2.index)).Nodup :=
    ((hp.map (fun x => x.2.index)).nodup_iff).mpr hnl
  exact List.eq_of_perm_of_sorted hp
    (sorted_idxLt_of_nodup hs' hnl') (sorted_idxLt_of_nodup hs hnl)

/-- Distinct indices restrict to the filtered survivors. -/
theorem survivors_index_nodup (m : VektManifest) (filter : Option String)
    (hnodup : (m.tensors.map (fun x => x.2.index)).Nodup) :
    ((survivors m filter).map (fun x => x.2.index)).Nodup :=
  hnodup.sublist ((m.tensors.filter_sublist).map (fun x => x.2.index))

/-- **C3.** Restore processes the surviving (post-filter) tensors in
ascending `index` order, and this order does not depend on the
serialization order of the manifest map (for distinct indices, data-model
invariant 4).  For a tensor whose hash is not yet placed, Pass 1 advances
the running offset up to the next multiple of 8, places the tensor at
`(start, end) = (aligned offset, aligned offset + product(shape) ×
dtype-size)`, records the placement, and continues from `end`; `align8`
indeed yields the least multiple of 8 not below the offset. -/
theorem claim_C3_restore_order (m m' : VektManifest) (filter : Option String)
    (st : Pass1State) (nt : String × ManifestTensor) (o : Nat)
    (hperm : m'.tensors.Perm m.tensors)
    (hnodup : (m.tensors.map (fun x => x.2.index)).Nodup)
    (hfresh : lookupHash st.written nt.2.hash = none) :
    ((sortByIndex (survivors m filter)).map (fun x => x.2.index)).Sorted
        (· ≤ ·) ∧
    sortByIndex (survivors m' filter) = sortByIndex (survivors m filter) ∧
    (pass1Step st nt).header = st.header ++
      [(nt.1, { shape := nt.2.shape, dtype := nt.2.dtype,
                data_offsets :=
                  (align8 st.offset, align8 st.offset + tensorByteSize nt.2),
                extra := nt.2.extra })] ∧
    (pass1Step st nt).offset = align8 st.offset + tensorByteSize nt.2 ∧
    (pass1Step st nt).written =
      (nt.2.hash, (align8 st.offset, align8 st.offset + tensorByteSize nt.2))
        :: st.written ∧
    (o ≤ align8 o ∧ align8 o % 8 = 0 ∧ align8 o < o + 8) := by
  refine ⟨?_, ?_, ?_, ?_, ?_, align8_ge o, align8_mod o, align8_lt o⟩
  · exact List.pairwise_map.mpr ((survivors m filter).sorted_insertionSort idxLe)
  · exact sortByIndex_perm_invariant _ _ (hperm.filter _)
      (survivors_index_nodup m filter hnodup)
  · rw [pass1Step]; simp only [hfresh]
  · rw [pass1Step]; simp only [hfresh]
  · rw [pass1Step]; simp only [hfresh]

/-- Witness for C3 at concrete inputs: a two-tensor manifest serialized in
both orders, the empty placement state, a fresh tensor, and offset 3. -/
theorem claim_C3_witness :
    ((sortByIndex (survivors (VektManifest.mk
        [("b", ManifestTensor.mk [2] "U8" [7] 1 []),
         ("a", ManifestTensor.mk [1] "U8" [5] 0 [])] "1.0" 0) none)).map
      (fun x => x.2.index)).Sorted (· ≤ ·) ∧
    sortByIndex (survivors (VektManifest.mk
        [("a", ManifestTensor.mk [1] "U8" [5] 0 []),
         ("b", ManifestTensor.mk [2] "U8" [7] 1 [])] "1.0" 0) none) =
      sortByIndex (survivors (VektManifest.mk
        [("b", ManifestTensor.mk [2] "U8" [7] 1 []),
         ("a", ManifestTensor.mk [1] "U8" [5] 0 [])] "1.0" 0) none) ∧
    (pass1Step (Pass1State.mk [] 3 []) ("c", ManifestTensor.mk [3] "U8" [9] 2 [])).header =
      [] ++ [("c", RawTensorMetaData.mk [3] "U8" (align8 3, align8 3 + tensorByteSize (ManifestTensor.mk [3] "U8" [9] 2 [])) [])] ∧
    (pass1Step (Pass1State.mk [] 3 []) ("c", ManifestTensor.mk [3] "U8" [9] 2 [])).offset =
      align8 3 + tensorByteSize (ManifestTensor.mk [3] "U8" [9] 2 []) ∧
    (pass1Step (Pass1State.mk [] 3 []) ("c", ManifestTensor.mk [3] "U8" [9] 2 [])).written =
      [([9], (align8 3, align8 3 + tensorByteSize (ManifestTensor.mk [3] "U8" [9] 2 [])))] ∧
    (3 ≤ align8 3 ∧ align8 3 % 8 = 0 ∧ align8 3 < 3 + 8) := by
  have h := claim_C3_restore_order
    (VektManifest.mk
      [("b", ManifestTensor.mk [2] "U8" [7] 1 []),
       ("a", ManifestTensor.mk [1] "U8" [5] 0 [])] "1.0" 0)
    (VektManifest.mk
      [("a", ManifestTensor.mk [1] "U8" [5] 0 []),
       ("b", ManifestTensor.mk [2] "U8" [7] 1 [])] "1.0" 0)
    none (Pass1State.mk [] 3 []) ("c", ManifestTensor.mk [3] "U8" [9] 2 []) 3
    (List.Perm.swap _ _ _) (by decide) rfl
  exact ⟨h.1, h.2.1, h.2.2.1, h.2.2.2.1, h.2.2.2.2.1, h.2.2.2.2.2⟩

/-! ## C2 — shared-weight deduplication -/

/-- The subsequence of tensors whose hash was not seen before (first
occurrence per hash): exactly the tensors Pass 2 writes a blob for. -/
def dedupByHash : List (String × ManifestTensor) → List Hash →
    List (String × ManifestTensor)
  | [], _ => []
  | nt :: rest, seen =>
    if nt.2.hash ∈ seen then dedupByHash rest seen
    else nt :: dedupByHash rest (nt.2.hash :: seen)

/-- Pass 2 specialised to a list without hash repetitions: pad, verify,
append, with no skip test. -/
def pass2Once : List (String × ManifestTensor) → Store → Bytes →
    Bytes × Option VektError
  | [], _, acc => (acc, none)
  | nt :: rest, store, acc =>
    let acc2 := padTo8 acc
    match store nt.2.hash with
    | none => (acc2, some .BlobNotFound)
    | some b =>
      if blake3Hex b = nt.2.hash then pass2Once rest store (acc2 ++ b)
      else (acc2, some .BlobCorrupt)

/-- Pass 2 writes exactly the first occurrence of each hash: it agrees
with the skip-free pass over the hash-deduplicated subsequence. -/
theorem pass2_eq_pass2Once_dedup :
    ∀ (l : List (String × ManifestTensor)) (store : Store) (acc : Bytes)
      (seen : List Hash),
      pass2 l store acc seen = pass2Once (dedupByHash l seen) store acc
  | [], _, _, _ => rfl
  | nt :: rest, store, acc, seen => by
    rw [pass2, dedupByHash]
    by_cases hm : nt.2.hash ∈ seen
    · rw [if_pos hm, if_pos hm]
      exact pass2_eq_pass2Once_dedup rest store acc seen
    · rw [if_neg hm, if_neg hm, pass2Once]
      cases hs : store nt.2.hash with
      | none => simp only [hs]
      | some b =>
        simp only [hs]
        by_cases hv : blake3Hex b = nt.2.hash
        · rw [if_pos hv, if_pos hv]
          exact pass2_eq_pass2Once_dedup rest store _ _
        · rw [if_neg hv, if_neg hv]

/-- The deduplicated subsequence has pairwise-distinct hashes, all of them
outside the seen set. -/
theorem dedupByHash_nodup :
    ∀ (l : List (String × ManifestTensor)) (seen : List Hash),
      ((dedupByHash l seen).map (fun x => x.2.hash)).Nodup ∧
      ∀ h ∈ (dedupByHash l seen).map (fun x => x.2.hash), h ∉ seen
  | [], seen => ⟨List.nodup_nil, by simp [dedupByHash]⟩
  | nt :: rest, seen => by
    rw [dedupByHash]
    by_cases hm : nt.2.hash ∈ seen
    · rw [if_pos hm]
      exact dedupByHash_nodup rest seen
    · rw [if_neg hm]
      have ih := dedupByHash_nodup rest (nt.2.hash :: seen)
      refine ⟨?_, ?_⟩
      · rw [List.map_cons, List.nodup_cons]
        refine ⟨fun hin => ?_, ih.1⟩
        exact (ih.2 _ hin) (List.mem_cons_self _ _)
      · intro h hin
        rcases List.mem_cons.mp hin with he | hin'
        · rw [he]; exact hm
        · intro hseen
          exact (ih.2 _ hin') (List.mem_cons_of_mem _ hseen)

/-- A hash occurring in the list and not yet seen occurs exactly once in
the deduplicated subsequence. -/
theorem dedupByHash_count :
    ∀ (l : List (String × ManifestTensor)) (seen : List Hash) (h : Hash),
      h ∉ seen → h ∈ l.map (fun x => x.2.hash) →
      (dedupByHash l seen).countP (fun x => decide (x.2.hash = h)) = 1
  | [], _, h, _, hmem => by simp at hmem
  | nt :: rest, seen, h, hseen, hmem => by
    rw [dedupByHash]
    by_cases hm : nt.2.hash ∈ seen
    · have hne : h ≠ nt.2.hash := fun he => hseen (he ▸ hm)
      have hmem' : h ∈ rest.map (fun x => x.2.hash) := by
        rcases List.mem_cons.mp hmem with he | hr
        · exact absurd he.symm (Ne.symm hne)
        · exact hr
      rw [if_pos hm]
      exact dedupByHash_count rest seen h hseen hmem'
    · rw [if_neg hm]
      by_cases he : nt.2.hash = h
      · rw [List.countP_cons_of_pos _ _ (by simpa using he)]
        have hzero :
            (dedupByHash rest (nt.2.hash :: seen)).countP
              (fun x => decide (x.2.hash = h)) = 0 := by
          rw [List.countP_eq_zero]
          intro a ha
          have hne :=
            (dedupByHash_nodup rest (nt.2.hash :: seen)).2 a.2.hash
              (List.mem_map_of_mem _ ha)
          simp only [decide_eq_true_eq]
          intro hah
          exact hne (by rw [hah, ← he]; exact List.mem_cons_self _ _)
        omega
      · rw [List.countP_cons_of_neg _ _ (by simpa using he)]
        have hmem' : h ∈ rest.map (fun x => x.2.hash) := by
          rcases List.mem_cons.mp hmem with h1 | hr
          · exact absurd h1.symm he
          · exact hr
        exact dedupByHash_count rest (nt.2.hash :: seen) h
          (by
            intro hc
            rcases List.mem_cons.mp hc with h1 | h2
            · exact he h1.symm
            · exact hseen h2) hmem'

/-- Pass 1 never rebinds a placed hash: recorded placements persist. -/
theorem pass1_written_preserved :
    ∀ (l : List (String × ManifestTensor)) (st : Pass1State) (h : Hash)
      (p : Nat × Nat),
      lookupHash st.written h = some p →
      lookupHash (l.foldl pass1Step st).written h = some p
  | [], _, _, _, hp => hp
  | nt :: rest, st, h, p, hp => by
    rw [List.foldl_cons]
    apply pass1_written_preserved rest
    rw [pass1Step]
    cases hl : lookupHash st.written nt.2.hash with
    | some q =>
      rcases q with ⟨s, e⟩
      simp only [hl]
      exact hp
    | none =>
      have hne : nt.2.hash ≠ h := fun he => by
        rw [he, hp] at hl; cases hl
      simp only [hl]
      rw [lookupHash, if_neg hne]
      exact hp

/-- Every tensor processed by Pass 1 ends up with a recorded placement for
its hash. -/
theorem pass1_written_total :
    ∀ (l : List (String × ManifestTensor)) (st : Pass1State)
      (nt : String × ManifestTensor), nt ∈ l →
      ∃ p, lookupHash (l.foldl pass1Step st).written nt.2.hash = some p
  | [], _, _, hmem => absurd hmem (List.not_mem_nil _)
  | x :: rest, st, nt, hmem => by
    rw [List.foldl_cons]
    rcases List.mem_cons.mp hmem with he | hr
    · subst he
      cases hl : lookupHash st.written nt.2.hash with
      | some p =>
        refine ⟨p, pass1_written_preserved rest _ _ _ ?_⟩
        rw [pass1Step]
        rcases p with ⟨s, e⟩
        simp only [hl]
      | none =>
        refine ⟨(align8 st.offset, align8 st.offset + tensorByteSize nt.2),
          pass1_written_preserved rest _ _ _ ?_⟩
        rw [pass1Step]
        simp only [hl]
        simp [lookupHash]
    · exact pass1_written_total rest _ nt hr

/-- Pass 1 only appends to the header under construction. -/
theorem pass1_header_mem_preserved :
    ∀ (l : List (String × ManifestTensor)) (st : Pass1State)
      (x : String × RawTensorMetaData),
      x ∈ st.header → x ∈ (l.foldl pass1Step st).header
  | [], _, _, hx => hx
  | nt :: rest, st, x, hx => by
    rw [List.foldl_cons]
    apply pass1_header_mem_preserved rest
    rw [pass1Step]
    cases hl : lookupHash st.written nt.2.hash with
    | some q =>
      rcases q with ⟨s, e⟩
      simp only [hl]
      exact List.mem_append_left _ hx
    | none =>
      simp only [hl]
      exact List.mem_append_left _ hx

/-- Every tensor processed by Pass 1 is emitted into the header with
`data_offsets` equal to the placement finally recorded for its hash. -/
theorem pass1_emits :
    ∀ (l : List (String × ManifestTensor)) (st : Pass1State)
      (nt : String × ManifestTensor), nt ∈ l →
      ∃ meta : RawTensorMetaData,
        (nt.1, meta) ∈ (l.foldl pass1Step st).header ∧
        some meta.data_offsets =
          lookupHash (l.foldl pass1Step st).written nt.2.hash
  | [], _, _, hmem => absurd hmem (List.not_mem_nil _)
  | x :: rest, st, nt, hmem => by
    rw [List.foldl_cons]
    rcases List.mem_cons.mp hmem with he | hr
    · subst he
      cases hl : lookupHash st.written nt.2.hash with
      | some p =>
        rcases p with ⟨s, e⟩
        refine ⟨{ shape := nt.2.shape, dtype := nt.2.dtype,
                  data_offsets := (s, e), extra := nt.2.extra }, ?_, ?_⟩
        · apply pass1_header_mem_preserved
          rw [pass1Step]
          simp only [hl]
          exact List.mem_append_right _ (List.mem_singleton_self _)
        · have hw : lookupHash ((pass1Step st nt).written) nt.2.hash =
              some (s, e) := by
            rw [pass1Step]
            simp only [hl]
          rw [pass1_written_preserved rest _ _ _ hw]
      | none =>
        refine ⟨{ shape := nt.2.shape, dtype := nt.2.dtype,
                  data_offsets :=
                    (align8 st.offset, align8 st.offset + tensorByteSize nt.2),
                  extra := nt.2.extra }, ?_, ?_⟩
        · apply pass1_header_mem_preserved
          rw [pass1Step]
          simp only [hl]
          exact List.mem_append_right _ (List.mem_singleton_self _)
        · have hw : lookupHash ((pass1Step st nt).written) nt.2.hash =
              some (align8 st.offset,
                align8 st.offset + tensorByteSize nt.2) := by
            rw [pass1Step]
            simp only [hl]
            simp [lookupHash]
          rw [pass1_written_preserved rest _ _ _ hw]
    · exact pass1_emits rest _ nt hr

/-- Destructuring a successful restore: the header is Pass 1's header over
the index-sorted survivors, and Pass 2 produced the data region without
error. -/
theorem restore_ok_elim (m : VektManifest) (store : Store)
    (filter : Option String) (hdr : RawHeader) (data : Bytes)
    (hrun : m.restore store filter = .ok hdr data) :
    hdr = (pass1 (sortByIndex (survivors m filter))).header ∧
    pass2 (sortByIndex (survivors m filter)) store [] [] = (data, none) := by
  unfold VektManifest.restore at hrun
  by_cases hv : m.tensors.all (fun nt => validate_tensor_name nt.1)
  · rw [if_pos hv] at hrun
    rcases hp : pass2 (sortByIndex (survivors m filter)) store [] [] with
      ⟨bytes, err⟩
    simp only [hp] at hrun
    cases err with
    | none =>
      injection hrun with hh hb
      exact ⟨hh.symm, by rw [hb]⟩
    | some e' => simp at hrun
  · rw [if_neg hv] at hrun
    simp at hrun

/-- **C2.** If two tensors of the manifest share a hash and restore (no
filter) succeeds, then (i) the written header carries entries for both
names with identical `data_offsets`; (ii) the data region is the skip-free
pass over the hash-deduplicated subsequence of the ordered tensors, whose
hashes are pairwise distinct and which contains the shared hash exactly
once — the blob's bytes are emitted exactly once; and (iii) for a second
or later tensor of an already-placed hash, Pass 1 reuses the recorded
`(start, end)` verbatim and does not advance the running offset or the
placement map. -/
theorem claim_C2_shared_hash (m : VektManifest) (store : Store)
    (n1 n2 : String) (t1 t2 : ManifestTensor) (hdr : RawHeader)
    (data : Bytes) (st : Pass1State) (nt : String × ManifestTensor)
    (s e : Nat)
    (h1 : (n1, t1) ∈ m.tensors) (h2 : (n2, t2) ∈ m.tensors)
    (hh : t1.hash = t2.hash)
    (hrun : m.restore store none = .ok hdr data) :
    (∃ e1 e2 : RawTensorMetaData, (n1, e1) ∈ hdr ∧ (n2, e2) ∈ hdr ∧
      e1.data_offsets = e2.data_offsets) ∧
    data = (pass2Once (dedupByHash (sortByIndex (survivors m none)) [])
      store []).1 ∧
    ((dedupByHash (sortByIndex (survivors m none)) []).map
      (fun x => x.2.hash)).Nodup ∧
    (dedupByHash (sortByIndex (survivors m none)) []).countP
      (fun x => decide (x.2.hash = t1.hash)) = 1 ∧
    (lookupHash st.written nt.2.hash = some (s, e) →
      (pass1Step st nt).offset = st.offset ∧
      (pass1Step st nt).header = st.header ++
        [(nt.1, { shape := nt.2.shape, dtype := nt.2.dtype,
                  data_offsets := (s, e), extra := nt.2.extra })] ∧
      (pass1Step st nt).written = st.written) := by
  obtain ⟨hhdr, hp2⟩ := restore_ok_elim m store none hdr data hrun
  have hmem1 : (n1, t1) ∈ sortByIndex (survivors m none) := by
    rw [sortByIndex]
    refine (((survivors m none).perm_insertionSort idxLe).mem_iff).mpr ?_
    exact List.mem_filter.mpr ⟨h1, rfl⟩
  have hmem2 : (n2, t2) ∈ sortByIndex (survivors m none) := by
    rw [sortByIndex]
    refine (((survivors m none).perm_insertionSort idxLe).mem_iff).mpr ?_
    exact List.mem_filter.mpr ⟨h2, rfl⟩
  refine ⟨?_, ?_, (dedupByHash_nodup _ _).1, ?_, ?_⟩
  · obtain ⟨m1, hm1, ho1⟩ :=
      pass1_emits (sortByIndex (survivors m none)) ⟨[], 0, []⟩ (n1, t1) hmem1
    obtain ⟨m2, hm2, ho2⟩ :=
      pass1_emits (sortByIndex (survivors m none)) ⟨[], 0, []⟩ (n2, t2) hmem2
    subst hhdr
    refine ⟨m1, m2, hm1, hm2, ?_⟩
    have hoo : some m1.data_offsets = some m2.data_offsets := by
      rw [ho1, ho2, hh]
    exact Option.some_inj.mp hoo
  · rw [pass2_eq_pass2Once_dedup] at hp2
    exact (congrArg Prod.fst hp2).symm
  · exact dedupByHash_count _ [] t1.hash (List.not_mem_nil _)
      (List.mem_map_of_mem _ hmem1)
  · intro hlook
    refine ⟨?_, ?_, ?_⟩ <;> (rw [pass1Step]; simp only [hlook])

/-- Two tensors `a` (index 0) and `b` (index 1) sharing the 1-byte blob
`[3]`, and a store holding that blob (witness data for the dedup claim). -/
def c2Manifest : VektManifest :=
  { tensors :=
      [("a", ManifestTensor.mk [1] "U8" [3] 0 []),
       ("b", ManifestTensor.mk [1] "U8" [3] 1 [])],
    version := "1.0", total_size := 0 }

def c2Store : Store := fun h => if h = [3] then some [3] else none

def c2Hdr : RawHeader :=
  [("a", RawTensorMetaData.mk [1] "U8" (0, 1) []),
   ("b", RawTensorMetaData.mk [1] "U8" (0, 1) [])]

/-- Witness for C2 at a concrete shared-hash manifest: both header entries
get `(0, 1)`, the data region holds the blob once, and the dedup branch of
Pass 1 at a concrete placed state reuses `(0, 1)` without advancing. -/
theorem claim_C2_witness :
    (∃ e1 e2 : RawTensorMetaData, ("a", e1) ∈ c2Hdr ∧ ("b", e2) ∈ c2Hdr ∧
      e1.data_offsets = e2.data_offsets) ∧
    ([3] : Bytes) =
      (pass2Once (dedupByHash (sortByIndex (survivors c2Manifest none)) [])
        c2Store []).1 ∧
    ((dedupByHash (sortByIndex (survivors c2Manifest none)) []).map
      (fun x => x.2.hash)).Nodup ∧
    (dedupByHash (sortByIndex (survivors c2Manifest none)) []).countP
      (fun x => decide (x.2.hash = ([3] : Hash))) = 1 ∧
    ((pass1Step ⟨[], 5, [([3], (0, 1))]⟩
        ("x", ManifestTensor.mk [1] "U8" [3] 7 [])).offset = 5 ∧
      (pass1Step ⟨[], 5, [([3], (0, 1))]⟩
        ("x", ManifestTensor.mk [1] "U8" [3] 7 [])).header =
        [] ++ [("x", RawTensorMetaData.mk [1] "U8" (0, 1) [])] ∧
      (pass1Step ⟨[], 5, [([3], (0, 1))]⟩
        ("x", ManifestTensor.mk [1] "U8" [3] 7 [])).written =
        [([3], (0, 1))]) := by
  have h := claim_C2_shared_hash c2Manifest c2Store "a" "b"
    (ManifestTensor.mk [1] "U8" [3] 0 []) (ManifestTensor.mk [1] "U8" [3] 1 [])
    c2Hdr [3] ⟨[], 5, [([3], (0, 1))]⟩
    ("x", ManifestTensor.mk [1] "U8" [3] 7 []) 0 1
    (by decide) (by decide) rfl (by decide)
  exact ⟨h.1, h.2.1, h.2.2.1, h.2.2.2.1, h.2.2.2.2 (by decide)⟩

/-! ## C1 — round-trip: layout lemmas -/

theorem layoutFrom_cons {data : Bytes} {o : Nat}
    {nm : String × RawTensorMetaData} {rest : List (String × RawTensorMetaData)}
    (h : layoutFrom data o (nm :: rest) = true) :
    nm.2.data_offsets = (align8 o, align8 o + entrySize nm.2) ∧
    sliceBytes data o (align8 o) = List.replicate (align8 o - o) 0 ∧
    layoutFrom data (align8 o + entrySize nm.2) rest = true := by
  rw [layoutFrom] at h
  simp only [Bool.and_eq_true, beq_iff_eq] at h
  exact ⟨h.1.1, h.1.2, h.2⟩

theorem layoutFrom_le (data : Bytes) :
    ∀ (entries : List (String × RawTensorMetaData)) (o : Nat),
      layoutFrom data o entries = true → o ≤ data.length
  | [], o, h => by
    rw [layoutFrom] at h
    exact Nat.le_of_eq (beq_iff_eq.mp h).symm
  | nm :: rest, o, h => by
    obtain ⟨_, _, h3⟩ := layoutFrom_cons h
    have hrec := layoutFrom_le data rest (align8 o + entrySize nm.2) h3
    have hge := align8_ge o
    omega

theorem layoutFrom_ends_le (data : Bytes) :
    ∀ (entries : List (String × RawTensorMetaData)) (o : Nat),
      layoutFrom data o entries = true →
      ∀ nm ∈ entries, nm.2.data_offsets.2 ≤ data.length
  | [], _, _, _, hmem => absurd hmem (List.not_mem_nil _)
  | x :: rest, o, h, nm, hmem => by
    obtain ⟨h1, _, h3⟩ := layoutFrom_cons h
    rcases List.mem_cons.mp hmem with he | hr
    · subst he
      rw [h1]
      exact layoutFrom_le data rest _ h3
    · exact layoutFrom_ends_le data rest _ h3 nm hr

theorem sliceBytes_length (data : Bytes) (s e : Nat) (he : e ≤ data.length) :
    (sliceBytes data s e).length = e - s := by
  simp [sliceBytes, Nat.min_eq_left he]

theorem take_eq_take_append_slice (data : Bytes) (o s : Nat) (h : o ≤ s) :
    data.take s = data.take o ++ sliceBytes data o s := by
  conv_lhs => rw [← List.take_append_drop o (data.take s)]
  rw [List.take_take, Nat.min_eq_left h, sliceBytes]

/-! ## C1 — the surviving tensors of a well-laid-out container -/

/-- The manifest tensors ingest emits for a container none of whose
entries is skipped, with indices counting from `i`. -/
def mapEntriesFrom (data : Bytes) (i : Nat) :
    List (String × RawTensorMetaData) → List (String × ManifestTensor)
  | [] => []
  | nm :: rest =>
    (nm.1, { shape := nm.2.shape, dtype := nm.2.dtype,
             hash := hashOfEntry data nm, index := i,
             extra := nm.2.extra }) :: mapEntriesFrom data (i + 1) rest

theorem processFrom_eq_mapEntriesFrom (data : Bytes) :
    ∀ (entries : List (String × RawTensorMetaData)) (i : Nat),
      (∀ nm ∈ entries, nm.2.data_offsets.2 ≤ data.length) →
      processFrom data i entries = mapEntriesFrom data i entries
  | [], _, _ => rfl
  | nm :: rest, i, h => by
    rw [processFrom, mapEntriesFrom, if_pos (h nm (List.mem_cons_self _ _))]
    rw [processFrom_eq_mapEntriesFrom data rest (i + 1)
      (fun x hx => h x (List.mem_cons_of_mem _ hx))]

theorem mapEntriesFrom_index_ge (data : Bytes) :
    ∀ (entries : List (String × RawTensorMetaData)) (i : Nat)
      (nt : String × ManifestTensor),
      nt ∈ mapEntriesFrom data i entries → i ≤ nt.2.index
  | [], _, _, h => absurd h (List.not_mem_nil _)
  | nm :: rest, i, nt, h => by
    rw [mapEntriesFrom] at h
    rcases List.mem_cons.mp h with he | hr
    · subst he
      exact Nat.le_refl i
    · exact Nat.le_trans (Nat.le_succ i)
        (mapEntriesFrom_index_ge data rest (i + 1) nt hr)

theorem mapEntriesFrom_sorted (data : Bytes) :
    ∀ (entries : List (String × RawTensorMetaData)) (i : Nat),
      (mapEntriesFrom data i entries).Sorted idxLe
  | [], _ => List.sorted_nil
  | nm :: rest, i => by
    rw [mapEntriesFrom]
    refine List.Pairwise.cons ?_ (mapEntriesFrom_sorted data rest (i + 1))
    intro nt hnt
    exact Nat.le_trans (Nat.le_succ i)
      (mapEntriesFrom_index_ge data rest (i + 1) nt hnt)

theorem mapEntriesFrom_all_valid (data : Bytes) :
    ∀ (entries : List (String × RawTensorMetaData)) (i : Nat),
      entries.all (fun nm => validate_tensor_name nm.1) = true →
      (mapEntriesFrom data i entries).all
        (fun nt => validate_tensor_name nt.1) = true
  | [], _, _ => rfl
  | nm :: rest, i, h => by
    rw [List.all_cons, Bool.and_eq_true] at h
    rw [mapEntriesFrom, List.all_cons, Bool.and_eq_true]
    exact ⟨h.1, mapEntriesFrom_all_valid data rest (i + 1) h.2⟩

theorem survivors_none (m : VektManifest) : survivors m none = m.tensors := by
  simp [survivors, keepTensor]

theorem survivingEntries_of_layout (header : RawHeader) (data : Bytes)
    (h : layoutFrom data 0 header = true) :
    survivingEntries header data = header := by
  rw [survivingEntries, List.filter_eq_self]
  intro nm hmem
  simpa using layoutFrom_ends_le data header 0 h nm hmem

/-! ## C1 — the store after ingest holds every surviving slice -/

theorem insertEntries_preserved (data : Bytes) :
    ∀ (entries : List (String × RawTensorMetaData)) (st : Store) (h : Hash),
      st h = some h → insertEntries data entries st h = some h
  | [], _, _, hh => hh
  | nm :: rest, st, h, hh => by
    rw [insertEntries]
    apply insertEntries_preserved data rest
    unfold storeInsert
    by_cases he : h = hashOfEntry data nm
    · rw [if_pos he, he]
      rfl
    · rw [if_neg he]
      exact hh

theorem insertEntries_mem (data : Bytes) :
    ∀ (entries : List (String × RawTensorMetaData)) (st : Store)
      (nm : String × RawTensorMetaData), nm ∈ entries →
      insertEntries data entries st (hashOfEntry data nm) =
        some (hashOfEntry data nm)
  | [], _, _, hmem => absurd hmem (List.not_mem_nil _)
  | x :: rest, st, nm, hmem => by
    rw [insertEntries]
    rcases List.mem_cons.mp hmem with he | hr
    · subst he
      apply insertEntries_preserved data rest
      unfold storeInsert
      rw [if_pos rfl]
      rfl
    · exact insertEntries_mem data rest _ nm hr

/-! ## C1 — Pass 1 reproduces the original header -/

theorem pass1_of_layout (data : Bytes) :
    ∀ (entries : List (String × RawTensorMetaData)) (i o : Nat)
      (H0 : RawHeader) (W : List (Hash × (Nat × Nat))),
      layoutFrom data o entries = true →
      (∀ nm ∈ entries, lookupHash W (hashOfEntry data nm) = none) →
      (entries.map (hashOfEntry data)).Nodup →
      ((mapEntriesFrom data i entries).foldl pass1Step
        { header := H0, offset := o, written := W }).header = H0 ++ entries
  | [], _, _, H0, _, _, _, _ => by simp [mapEntriesFrom]
  | nm :: rest, i, o, H0, W, hlay, hfresh, hnodup => by
    obtain ⟨h1, _, h3⟩ := layoutFrom_cons hlay
    have h1' := h1
    simp only [entrySize] at h1'
    have hndup' := hnodup
    rw [List.map_cons, List.nodup_cons] at hndup'
    rw [mapEntriesFrom, List.foldl_cons]
    have hstep : pass1Step { header := H0, offset := o, written := W }
        (nm.1, { shape := nm.2.shape, dtype := nm.2.dtype,
                 hash := hashOfEntry data nm, index := i,
                 extra := nm.2.extra }) =
        { header := H0 ++ [nm],
          offset := align8 o + entrySize nm.2,
          written := (hashOfEntry data nm,
            (align8 o, align8 o + entrySize nm.2)) :: W } := by
      rw [pass1Step]
      simp only [hfresh nm (List.mem_cons_self _ _), tensorByteSize, entrySize]
      rw [← h1']
    rw [hstep]
    rw [pass1_of_layout data rest (i + 1) (align8 o + entrySize nm.2)
      (H0 ++ [nm]) _ h3 ?_ hndup'.2]
    · rw [List.append_assoc]
      rfl
    · intro nm' hmem'
      rw [lookupHash]
      have hne : hashOfEntry data nm ≠ hashOfEntry data nm' := by
        intro hcontra
        exact hndup'.1 (hcontra ▸ List.mem_map_of_mem _ hmem')
      rw [if_neg hne]
      exact hfresh nm' (List.mem_cons_of_mem _ hmem')

/-! ## C1 — Pass 2 reproduces the original data region -/

theorem pass2_of_layout (data : Bytes) (store : Store) :
    ∀ (entries : List (String × RawTensorMetaData)) (i o : Nat)
      (acc : Bytes) (W : List Hash),
      layoutFrom data o entries = true →
      acc = data.take o →
      acc.length = o →
      (∀ nm ∈ entries, hashOfEntry data nm ∉ W) →
      (entries.map (hashOfEntry data)).Nodup →
      (∀ nm ∈ entries,
        store (hashOfEntry data nm) = some (hashOfEntry data nm)) →
      pass2 (mapEntriesFrom data i entries) store acc W = (data, none)
  | [], _, o, acc, W, hlay, hacc, _, _, _, _ => by
    rw [layoutFrom] at hlay
    have ho : data.length = o := beq_iff_eq.mp hlay
    rw [mapEntriesFrom, pass2, hacc, ← ho, List.take_length]
  | nm :: rest, i, o, acc, W, hlay, hacc, hlen, hfresh, hnodup, hstore => by
    obtain ⟨h1, h2, h3⟩ := layoutFrom_cons hlay
    have hslen : align8 o + entrySize nm.2 ≤ data.length :=
      layoutFrom_le data rest _ h3
    have hndup' := hnodup
    rw [List.map_cons, List.nodup_cons] at hndup'
    have hpad : padTo8 acc = data.take (align8 o) := by
      have hcount : (8 - o % 8) % 8 = align8 o - o := by
        unfold align8; omega
      rw [padTo8, hlen, hacc, hcount, ← h2,
        ← take_eq_take_append_slice data o (align8 o) (align8_ge o)]
    have hblob : hashOfEntry data nm =
        sliceBytes data (align8 o) (align8 o + entrySize nm.2) := by
      rw [hashOfEntry, sliceOfEntry, h1]
      rfl
    rw [mapEntriesFrom, pass2]
    rw [if_neg (hfresh nm (List.mem_cons_self _ _))]
    simp only [hstore nm (List.mem_cons_self _ _)]
    rw [if_pos (show blake3Hex (hashOfEntry data nm) = hashOfEntry data nm
      from rfl)]
    have hacc3 : padTo8 acc ++ hashOfEntry data nm =
        data.take (align8 o + entrySize nm.2) := by
      rw [hpad, hblob,
        ← take_eq_take_append_slice data (align8 o)
          (align8 o + entrySize nm.2) (Nat.le_add_right _ _)]
    have hlen3 : (padTo8 acc ++ hashOfEntry data nm).length =
        align8 o + entrySize nm.2 := by
      rw [hacc3, List.length_take, Nat.min_eq_left hslen]
    refine pass2_of_layout data store rest (i + 1)
      (align8 o + entrySize nm.2) _ _ h3 hacc3 hlen3 ?_ hndup'.2 ?_
    · intro nm' hmem'
      intro hc
      rcases List.mem_cons.mp hc with he | hw
      · exact hndup'.1 (he ▸ List.mem_map_of_mem _ hmem')
      · exact hfresh nm' (List.mem_cons_of_mem _ hmem') hw
    · intro nm' hmem'
      exact hstore nm' (List.mem_cons_of_mem _ hmem')

/-- **C1 (amended).** Round-trip: for a container whose tensors are
8-byte aligned between tensors and non-overlapping — made precise by
`wellLaidOut`: laid out consecutively in header order from offset 0, each
tensor starting at the next 8-byte boundary with zero padding in the gap,
`data_offsets` extents equal to `product(shape) × dtype-size`, spanning
the data region — whose names are valid and whose tensor contents are
pairwise distinct, restoring (no filter) the manifest produced by ingest,
against the store ingest populated, rebuilds the container exactly: the
header parses to the same entries in the same order and the data region
is byte-for-byte equal. -/
theorem claim_C1_roundtrip (header : RawHeader) (data : Bytes)
    (headerLen : Nat) (st0 : Store)
    (hlay : wellLaidOut header data = true)
    (hnames : header.all (fun nm => validate_tensor_name nm.1) = true)
    (hdist : (header.map (hashOfEntry data)).Nodup) :
    (process header data headerLen).restore
      (processStore header data st0) none = .ok header data := by
  have hends := layoutFrom_ends_le data header 0 hlay
  have hproc : (process header data headerLen).tensors =
      mapEntriesFrom data 0 header :=
    processFrom_eq_mapEntriesFrom data header 0 hends
  have hsurv : survivors (process header data headerLen) none =
      mapEntriesFrom data 0 header := by
    rw [survivors_none, hproc]
  have hsorted :
      sortByIndex (survivors (process header data headerLen) none) =
        mapEntriesFrom data 0 header := by
    rw [hsurv, sortByIndex]
    exact (mapEntriesFrom_sorted data header 0).insertionSort_eq
  have hvalid : (process header data headerLen).tensors.all
      (fun nt => validate_tensor_name nt.1) = true := by
    rw [hproc]
    exact mapEntriesFrom_all_valid data header 0 hnames
  have hstore : ∀ nm ∈ header,
      processStore header data st0 (hashOfEntry data nm) =
        some (hashOfEntry data nm) := by
    intro nm hmem
    rw [processStore, survivingEntries_of_layout header data hlay]
    exact insertEntries_mem data header st0 nm hmem
  have hp1 : (pass1 (mapEntriesFrom data 0 header)).header = header := by
    rw [pass1]
    have hgen := pass1_of_layout data header 0 0 [] [] hlay
      (fun nm _ => rfl) hdist
    simpa using hgen
  have hp2 : pass2 (mapEntriesFrom data 0 header)
      (processStore header data st0) [] [] = (data, none) :=
    pass2_of_layout data (processStore header data st0) header 0 0 [] []
      hlay rfl rfl (fun nm _ => List.not_mem_nil _) hdist hstore
  unfold VektManifest.restore
  rw [if_pos hvalid]
  simp only [hsorted, hp2, hp1]

/-- A container that is 8-byte aligned between tensors, non-overlapping,
zero-padded, size-exact and valid-named, but whose two tensors have
identical contents `[9, 9, 9, 9]` at distinct offsets. -/
def c1Header : RawHeader :=
  [("a", RawTensorMetaData.mk [4] "U8" (0, 4) []),
   ("b", RawTensorMetaData.mk [4] "U8" (8, 12) [])]

def c1Data : Bytes := [9, 9, 9, 9, 0, 0, 0, 0, 9, 9, 9, 9]

/-- **C1 (counterexample).** The claim as stated is false: this container
is 8-byte aligned between tensors and non-overlapping (it satisfies the
full `wellLaidOut` layout discipline, with valid names), yet because its
two tensors carry equal bytes they receive equal hashes, restore
deduplicates them, and the restored container differs from the original —
the data region holds the blob once (4 bytes instead of 12) and tensor
`b`'s header entry gets `data_offsets = (0, 4)` instead of `(8, 12)`. -/
theorem claim_C1_counterexample :
    wellLaidOut c1Header c1Data = true ∧
    c1Header.all (fun nm => validate_tensor_name nm.1) = true ∧
    (process c1Header c1Data 0).restore
      (processStore c1Header c1Data (fun _ => none)) none ≠
      .ok c1Header c1Data := by
  refine ⟨by decide, by decide, by decide⟩

/-- Witness for C1: a container with a 4-byte and a 5-byte tensor of
distinct contents round-trips exactly. -/
theorem claim_C1_witness :
    (process
        [("a", RawTensorMetaData.mk [4] "U8" (0, 4) []),
         ("b", RawTensorMetaData.mk [5] "U8" (8, 13) [])]
        [1, 2, 3, 4, 0, 0, 0, 0, 5, 6, 7, 8, 9] 57).restore
      (processStore
        [("a", RawTensorMetaData.mk [4] "U8" (0, 4) []),
         ("b", RawTensorMetaData.mk [5] "U8" (8, 13) [])]
        [1, 2, 3, 4, 0, 0, 0, 0, 5, 6, 7, 8, 9] (fun _ => none)) none =
      .ok
        [("a", RawTensorMetaData.mk [4] "U8" (0, 4) []),
         ("b", RawTensorMetaData.mk [5] "U8" (8, 13) [])]
        [1, 2, 3, 4, 0, 0, 0, 0, 5, 6, 7, 8, 9] :=
  claim_C1_roundtrip
    [("a", RawTensorMetaData.mk [4] "U8" (0, 4) []),
     ("b", RawTensorMetaData.mk [5] "U8" (8, 13) [])]
    [1, 2, 3, 4, 0, 0, 0, 0, 5, 6, 7, 8, 9] 57 (fun _ => none)
    (by decide) (by decide) (by decide)
